import Mathlib

/-!
Shallow embedding of the unchoke scheduler (`session_impl::recalculate_unchoke_slots`,
src/session_impl.cpp) and of the DHT RPC manager (`rpc_manager::incoming`,
`rpc_manager::tick`, `rpc_manager::invoke`, src/kademlia/rpc_manager.cpp) of the
libtorrent core, together with theorems settling the behavioural claims about them.

Modelling conventions:
* machine integers of the source become `Nat` / `Int` (the values involved never
  overflow 32-bit ints in the scenarios considered);
* time (`ptime` / `time_duration`) is modelled in milliseconds as `Nat`,
  `seconds n = 1000 * n`; the clock is monotone so durations are non-negative;
* network addresses are abstracted to `Nat` identifiers; a UDP endpoint is an
  (address, port) pair, matching the source which compares `address()` and
  `port()` separately;
* mutation of shared objects becomes explicit state passing: functions return
  the updated collections together with a record of the calls they issued
  (error packets sent, observers whose callbacks ran).
-/

namespace Libtorrent

/-! ## Unchoke scheduler: `session_impl::recalculate_unchoke_slots`

The embedding is specialised to the default configuration
`choking_algorithm = fixed_slots_choker`: the `rate_based_choker` and
`bittyrant_choker` branches and the `auto_expand_choker` adjustment of
`m_allowed_upload_slots` are never entered and are omitted, so
`m_allowed_upload_slots` is an input. -/

/-- State of one `peer_connection` (and its `torrent_peer` info) as far as the
unchoke scheduler reads or writes it. `choked` is `p->is_choked()` (we choke
the peer), `optUnchoked` is `torrent_peer::optimistically_unchoked`,
`hasTorrent` stands for `p->associated_torrent().lock() != 0`, `hasPeerInfo`
for `p->peer_info_struct() != 0`, `paused` for `t->is_paused()`. `rank` is the
sort key abstracting `peer_connection::unchoke_compare` (defined outside this
subsystem): a larger rank means the peer sorts earlier. -/
structure PeerConn where
  interested : Bool
  choked : Bool
  optUnchoked : Bool
  ignoreUnchokeSlots : Bool
  hasTorrent : Bool
  hasPeerInfo : Bool
  webSeed : Bool
  paused : Bool
  disconnecting : Bool
  connecting : Bool
  rank : Nat
deriving DecidableEq

/-- The first filter of `recalculate_unchoke_slots`: peers skipped entirely
(`continue` without any state change) are the ones with
`p->ignore_unchoke_slots() || t == 0 || pi == 0 || pi->web_seed || t->is_paused()`. -/
def eligible (p : PeerConn) : Bool :=
  !(p.ignoreUnchokeSlots || !p.hasTorrent || !p.hasPeerInfo || p.webSeed || p.paused)

/-- A peer that passes both filters of the first loop and is collected into the
`peers` vector: eligible, interested, not disconnecting, not connecting. -/
def unchokable (p : PeerConn) : Bool :=
  eligible p && (p.interested && (!p.disconnecting && !p.connecting))

/-- First loop of `recalculate_unchoke_slots` over `m_connections`. Returns the
connections not collected into `peers` (with the choke applied to unchokable
candidates that are not interested / disconnecting / connecting, as in the
source) and the collected `peers` vector. `torrent::choke_peer` is outside
this subsystem; modelled from the spec as setting the choked flag. -/
def firstPass : List PeerConn → List PeerConn × List PeerConn
  | [] => ([], [])
  | p :: rest =>
    let r := firstPass rest
    if p.ignoreUnchokeSlots || !p.hasTorrent || !p.hasPeerInfo || p.webSeed || p.paused then
      (p :: r.1, r.2)
    else if !p.interested || p.disconnecting || p.connecting then
      if p.choked then (p :: r.1, r.2)
      else ({ p with choked := true, optUnchoked := false } :: r.1, r.2)
    else (r.1, p :: r.2)

/-- Modelled from the spec: `std::sort(peers, unchoke_compare)` where
`peer_connection::unchoke_compare` (defined in the peer-connection subsystem,
outside this file tree) ranks peers by download rate and secondarily by total
upload; abstracted into the single `rank` key, larger rank first. -/
def sortPeers (l : List PeerConn) : List PeerConn :=
  l.insertionSort (fun a b => b.rank ≤ a.rank)

/-- The final loop of `recalculate_unchoke_slots` in fixed-slots mode, with
`s` the remaining `unchoke_set_size`. Returns the updated peers and the
resulting `m_num_unchoked`. `torrent::unchoke_peer` / `torrent::choke_peer`
are outside this subsystem; modelled from the spec as flag updates that
always succeed. -/
def unchokeLoop : List PeerConn → Int → List PeerConn × Nat
  | [], _ => ([], 0)
  | p :: rest, s =>
    if 0 < s then
      let r := unchokeLoop rest (s - 1)
      ({ p with choked := false, optUnchoked := false } :: r.1, r.2 + 1)
    else if p.choked then
      let r := unchokeLoop rest s
      (p :: r.1, r.2)
    else if p.optUnchoked then
      let r := unchokeLoop rest s
      (p :: r.1, r.2 + 1)
    else
      let r := unchokeLoop rest s
      ({ p with choked := true } :: r.1, r.2)

/-- The `num_opt_unchoke` computation: the configured
`settings_pack::num_optimistic_unchoke_slots`, with 0 meaning
`max(1, m_allowed_upload_slots / 5)`. -/
def numOptUnchoke (cfg slots : Int) : Int :=
  if cfg = 0 then max 1 (slots / 5) else cfg

/-- Result of `recalculate_unchoke_slots`: the connections that were not in
the `peers` vector (first-loop state applied), the `peers` vector after the
final loop, and the new `m_num_unchoked`. -/
structure UnchokeResult where
  ineligible : List PeerConn
  peersOut : List PeerConn
  numUnchoked : Nat
deriving DecidableEq

/-- `session_impl::recalculate_unchoke_slots` specialised to the fixed-slots
choker. `cfg` is `settings_pack::num_optimistic_unchoke_slots` and `slots` is
`m_allowed_upload_slots` (not recomputed in this mode). -/
def recalculate_unchoke_slots (cfg slots : Int) (conns : List PeerConn) : UnchokeResult :=
  let fp := firstPass conns
  let peers := sortPeers fp.2
  let s := slots - numOptUnchoke cfg slots
  let res := unchokeLoop peers s
  ⟨fp.1, res.1, res.2⟩

/-- The number of eligible interested peers: exactly the peers collected into
the `peers` vector by the first loop. -/
def numInterestedPeers (conns : List PeerConn) : Nat :=
  conns.countP unchokable

/-- Count of unchoked connections after the call, counting only peers that do
not ignore unchoke slots (the quantity named by the claim). -/
def unchokedNotIgnoring (r : UnchokeResult) : Nat :=
  (r.ineligible ++ r.peersOut).countP (fun p => !p.choked && !p.ignoreUnchokeSlots)

/-- Count of unchoked connections after the call among the eligible interested
peers (the peers the scheduler actually manages; this is what
`m_num_unchoked` counts). -/
def unchokedEligible (r : UnchokeResult) : Nat :=
  (r.ineligible ++ r.peersOut).countP (fun p => unchokable p && !p.choked)

/-- Concrete peer used by the counterexample: interested, choked, not
optimistically unchoked, fully eligible. -/
def cxPeer : PeerConn :=
  ⟨true, true, false, false, true, true, false, false, false, false, 0⟩

/-! ## DHT RPC manager (`src/kademlia/rpc_manager.cpp`) -/

/-- One outstanding RPC as `rpc_manager` sees it: the 16-bit transaction id,
the recorded target endpoint (`m_addr`, `m_port`), the send timestamp
`m_sent` (milliseconds), and the `m_done` / `m_short_timeout` latches. -/
structure Observer where
  tid : Nat
  targetAddr : Nat
  targetPort : Nat
  sent : Nat
  done : Bool
  shortTimeoutFlag : Bool
deriving DecidableEq

/-- The error messages produced by `rpc_manager::incoming` via
`incoming_error`; `invalidTransactionId` stands for the bencoded error with
message string "invalid transaction id", and the other two for the
missing-key errors for the reply dictionary and the node id. -/
inductive DhtError where
  | invalidTransactionId
  | missingRKey
  | missingIdKey
deriving DecidableEq

/-- An incoming DHT reply (`msg const& m`) as `rpc_manager::incoming` reads
it: the parsed transaction id (`none` when the "t" string does not have
size 2, in which case the source sets `tid = -1`, matching no observer),
the source endpoint, and whether the "r" dictionary and a well-formed
20-byte "id" entry are present. -/
structure DhtMsg where
  tid : Option Nat
  srcAddr : Nat
  srcPort : Nat
  hasR : Bool
  goodNodeId : Bool
deriving DecidableEq

/-- Effect of one call to `rpc_manager::incoming`: the transaction list after
the call, the error packets handed to `m_send` (message, destination
address), the observer whose `reply` callback was invoked (if any), and the
boolean return value. -/
structure IncomingResult where
  transactions : List Observer
  sent : List (DhtError × Nat)
  replied : Option Observer
  ret : Bool
deriving DecidableEq

/-- The matching loop of `rpc_manager::incoming`: find the first observer
whose transaction id equals the message's and whose recorded target address
equals the message's source address, and remove it from the list. -/
def extractMatch (mtid : Option Nat) (srcAddr : Nat) :
    List Observer → Option (Observer × List Observer)
  | [] => none
  | o :: rest =>
    if mtid = some o.tid ∧ o.targetAddr = srcAddr then some (o, rest)
    else
      match extractMatch mtid srcAddr rest with
      | none => none
      | some (m, rest2) => some (m, o :: rest2)

/-- `rpc_manager::incoming`. `destructing` is `m_destructing`; `nodeSeen`
abstracts the return value of `m_table.node_seen` (the routing table is
outside this subsystem). On no (tid, source-address) match the bencoded
error "invalid transaction id" is sent back to the source and the
transaction list is untouched; on a match the observer is removed from the
list before the reply dictionary is validated, and its `reply` callback runs
only if validation passes. -/
def incoming (destructing nodeSeen : Bool) (trans : List Observer) (m : DhtMsg) :
    IncomingResult :=
  if destructing then ⟨trans, [], none, false⟩
  else
    match extractMatch m.tid m.srcAddr trans with
    | none => ⟨trans, [(DhtError.invalidTransactionId, m.srcAddr)], none, false⟩
    | some (o, rest) =>
      if !m.hasR then ⟨rest, [(DhtError.missingRKey, m.srcAddr)], none, false⟩
      else if !m.goodNodeId then ⟨rest, [(DhtError.missingIdKey, m.srcAddr)], none, false⟩
      else ⟨rest, [], some o, nodeSeen⟩

/-- Durations: `libtorrent::seconds`, with time modelled in milliseconds. -/
def seconds (n : Nat) : Nat := 1000 * n

/-- Effect of one call to `rpc_manager::tick`: the transaction list after the
call, the observers whose hard-timeout failure (`observer::timeout` with
`m_done` still false, reporting `failed` to the traversal) ran, the
observers whose `observer::short_timeout` signal ran, any packets handed to
`m_send` (the source sends none from `tick`), and the returned duration. -/
structure TickResult where
  transactions : List Observer
  hardFailed : List Observer
  shortSignals : List Observer
  sends : List (DhtError × Nat)
  ret : Nat
deriving DecidableEq

/-- The first loop's continue-condition: the observer's age has reached the
hard timeout, `!(now - o.sent < seconds 20)`. -/
def hardExpired (now : Nat) (o : Observer) : Bool :=
  decide (seconds 20 ≤ now - o.sent)

/-- The second loop's continue-condition: the observer's age has reached the
short timeout, `!(now - o.sent < seconds 3)`. -/
def shortExpired (now : Nat) (o : Observer) : Bool :=
  decide (seconds 3 ≤ now - o.sent)

/-- Effect of `observer::short_timeout` on the observer's state: the
`m_short_timeout` latch is set. -/
def setShortFlag (o : Observer) : Observer :=
  { o with shortTimeoutFlag := true }

/-- The duration returned by `rpc_manager::tick`: `seconds 3` by default,
overwritten with `seconds 20 - age` when the first loop breaks and with
`seconds 3 - age` when the second loop breaks. -/
def tickRet (now : Nat) (trans : List Observer) : Nat :=
  match ((trans.dropWhile (hardExpired now)).dropWhile (shortExpired now)).head? with
  | some o => seconds 3 - (now - o.sent)
  | none =>
    match (trans.dropWhile (hardExpired now)).head? with
    | none => seconds 3
    | some o => seconds 20 - (now - o.sent)

/-- `rpc_manager::tick`. The first loop erases the leading observers whose
age is at least `seconds 20` and runs `observer::timeout` on them (the loop
breaks at the first younger observer, every later one being younger still);
the second loop walks the remaining leading observers of age at least
`seconds 3` and signals `observer::short_timeout` on those not yet flagged,
setting the flag. `tick` hands nothing to `m_send`. -/
def tick (now : Nat) (trans : List Observer) : TickResult :=
  if trans = [] then ⟨trans, [], [], [], seconds 3⟩
  else
    ⟨((trans.dropWhile (hardExpired now)).takeWhile (shortExpired now)).map setShortFlag
        ++ (trans.dropWhile (hardExpired now)).dropWhile (shortExpired now),
      (trans.takeWhile (hardExpired now)).filter (fun o => !o.done),
      ((trans.dropWhile (hardExpired now)).takeWhile (shortExpired now)).filter
        (fun o => !o.shortTimeoutFlag),
      [],
      tickRet now trans⟩

/-- `max_transaction_id`: transaction ids are a 16-bit wrap-around counter. -/
def max_transaction_id : Nat := 65536

/-- The `rpc_manager` state touched by `invoke`: `m_next_transaction_id` and
`m_transactions`. -/
structure InvokeState where
  nextTid : Nat
  transactions : List Observer
deriving DecidableEq

/-- `rpc_manager::invoke` (state effect): stamp the observer with the target
endpoint, the current time and `m_next_transaction_id`; if the send
succeeds, append it to the back of `m_transactions` and advance the counter
modulo `max_transaction_id`. `destructing` is `m_destructing` and `sendOk`
the result of `m_send`. -/
def invoke (destructing : Bool) (now : Nat) (target : Nat × Nat) (sendOk : Bool)
    (st : InvokeState) : InvokeState × Bool :=
  if destructing then (st, false)
  else if sendOk then
    (⟨(st.nextTid + 1) % max_transaction_id,
      st.transactions ++ [⟨st.nextTid, target.1, target.2, now, false, false⟩]⟩, true)
  else (st, true)

/-! ## Helper lemmas for the unchoke scheduler -/

/-- The final loop unchokes exactly `min n unchoke_set_size` leading peers and
leaves the optimistically unchoked peers of the tail unchoked. -/
theorem unchokeLoop_count (l : List PeerConn) (s : Int) :
    (unchokeLoop l s).2
      = min l.length s.toNat
        + (l.drop s.toNat).countP (fun p => !p.choked && p.optUnchoked) := by
  induction l generalizing s with
  | nil => simp [unchokeLoop]
  | cons p rest ih =>
    by_cases hs : 0 < s
    · have h1 : s.toNat = (s - 1).toNat + 1 := by omega
      simp only [unchokeLoop, if_pos hs]
      rw [ih (s - 1), h1]
      simp only [List.length_cons, List.drop_succ_cons]
      omega
    · have h0 : s.toNat = 0 := by omega
      rw [h0]
      simp only [unchokeLoop, if_neg hs, List.drop_zero, List.length_cons,
        Nat.min_zero, Nat.zero_add, List.countP_cons]
      by_cases hc : p.choked
      · rw [if_pos hc, ih s, h0]
        simp [hc]
      · rw [if_neg hc]
        by_cases ho : p.optUnchoked
        · rw [if_pos ho, ih s, h0]
          simp [hc, ho]
        · rw [if_neg ho, ih s, h0]
          simp [hc, ho]

/-- Updating the choke flags does not change unchokability. -/
theorem unchokable_update (p : PeerConn) (c o : Bool) :
    unchokable { p with choked := c, optUnchoked := o } = unchokable p := rfl

/-- Over a list of unchokable peers, `m_num_unchoked` as maintained by the
final loop equals the number of unchokable peers left unchoked. -/
theorem unchokeLoop_unchoked_countP (l : List PeerConn) (s : Int)
    (h : ∀ p ∈ l, unchokable p = true) :
    ((unchokeLoop l s).1).countP (fun p => unchokable p && !p.choked)
      = (unchokeLoop l s).2 := by
  induction l generalizing s with
  | nil => simp [unchokeLoop]
  | cons p rest ih =>
    have hp : unchokable p = true := h p (List.mem_cons_self _ _)
    have hr : ∀ q ∈ rest, unchokable q = true := fun q hq => h q (List.mem_cons_of_mem _ hq)
    by_cases hs : 0 < s
    · simp only [unchokeLoop, if_pos hs, List.countP_cons]
      rw [ih (s - 1) hr]
      simp [unchokable_update, hp]
    · simp only [unchokeLoop, if_neg hs]
      by_cases hc : p.choked
      · rw [if_pos hc]
        simp only [List.countP_cons]
        rw [ih s hr]
        simp [hc]
      · rw [if_neg hc]
        by_cases ho : p.optUnchoked
        · rw [if_pos ho]
          simp only [List.countP_cons]
          rw [ih s hr]
          simp [hc, hp]
        · rw [if_neg ho]
          simp only [List.countP_cons]
          rw [ih s hr]
          simp [unchokable_update]

/-- No connection left outside the `peers` vector by the first loop is both
unchokable and unchoked. -/
theorem firstPass_fst_not_unchokable (conns : List PeerConn) :
    ∀ p ∈ (firstPass conns).1, (unchokable p && !p.choked) = false := by
  induction conns with
  | nil => simp [firstPass]
  | cons q rest ih =>
    intro p hp
    simp only [firstPass] at hp
    by_cases h1 : q.ignoreUnchokeSlots || !q.hasTorrent || !q.hasPeerInfo || q.webSeed
        || q.paused
    · rw [if_pos h1] at hp
      rcases List.mem_cons.1 hp with rfl | hp2
      · simp [unchokable, eligible, h1]
      · exact ih p hp2
    · rw [if_neg h1] at hp
      by_cases h2 : !q.interested || q.disconnecting || q.connecting
      · rw [if_pos h2] at hp
        by_cases hc : q.choked
        · rw [if_pos hc] at hp
          rcases List.mem_cons.1 hp with rfl | hp2
          · simp [hc]
          · exact ih p hp2
        · rw [if_neg hc] at hp
          rcases List.mem_cons.1 hp with rfl | hp2
          · simp
          · exact ih p hp2
      · rw [if_neg h2] at hp
        exact ih p hp

/-- Every peer collected into the `peers` vector is unchokable. -/
theorem firstPass_snd_unchokable (conns : List PeerConn) :
    ∀ p ∈ (firstPass conns).2, unchokable p = true := by
  induction conns with
  | nil => simp [firstPass]
  | cons q rest ih =>
    intro p hp
    simp only [firstPass] at hp
    by_cases h1 : q.ignoreUnchokeSlots || !q.hasTorrent || !q.hasPeerInfo || q.webSeed
        || q.paused
    · rw [if_pos h1] at hp
      exact ih p hp
    · rw [if_neg h1] at hp
      by_cases h2 : !q.interested || q.disconnecting || q.connecting
      · rw [if_pos h2] at hp
        by_cases hc : q.choked
        · rw [if_pos hc] at hp
          exact ih p hp
        · rw [if_neg hc] at hp
          exact ih p hp
      · rw [if_neg h2] at hp
        rcases List.mem_cons.1 hp with rfl | hp2
        · have e1 : (p.ignoreUnchokeSlots || !p.hasTorrent || !p.hasPeerInfo || p.webSeed
              || p.paused) = false := by
            exact Bool.eq_false_iff.2 h1
          have e2 : (!p.interested || p.disconnecting || p.connecting) = false := by
            exact Bool.eq_false_iff.2 h2
          simp only [Bool.or_eq_false_iff, Bool.not_eq_false'] at e1 e2
          simp [unchokable, eligible, e1, e2]
        · exact ih p hp2

/-- The `peers` vector collects exactly the unchokable connections. -/
theorem firstPass_snd_length (conns : List PeerConn) :
    ((firstPass conns).2).length = conns.countP unchokable := by
  induction conns with
  | nil => simp [firstPass]
  | cons q rest ih =>
    simp only [List.countP_cons]
    by_cases h1 : q.ignoreUnchokeSlots || !q.hasTorrent || !q.hasPeerInfo || q.webSeed
        || q.paused
    · have hu : unchokable q = false := by simp [unchokable, eligible, h1]
      simp only [firstPass, if_pos h1, hu]
      simp [ih]
    · by_cases h2 : !q.interested || q.disconnecting || q.connecting
      · have hu : unchokable q = false := by
          have e2 := h2
          simp only [Bool.or_eq_true_iff] at e2
          rcases e2 with (hi | hd) | hc
          · have hi2 : q.interested = false := by simpa using hi
            simp [unchokable, hi2]
          · simp [unchokable, hd]
          · simp [unchokable, hc]
        by_cases hc : q.choked
        · simp only [firstPass, if_neg h1, if_pos h2, if_pos hc, hu]
          simp [ih]
        · simp only [firstPass, if_neg h1, if_pos h2, if_neg hc, hu]
          simp [ih]
      · have e1 : (q.ignoreUnchokeSlots || !q.hasTorrent || !q.hasPeerInfo || q.webSeed
            || q.paused) = false := Bool.eq_false_iff.2 h1
        have e2 : (!q.interested || q.disconnecting || q.connecting) = false :=
          Bool.eq_false_iff.2 h2
        simp only [Bool.or_eq_false_iff, Bool.not_eq_false'] at e1 e2
        have hu : unchokable q = true := by
          simp [unchokable, eligible, e1, e2]
        simp only [firstPass, if_neg h1, if_neg h2, hu]
        simp [ih]

/-- Sorting keeps the length. -/
theorem sortPeers_length (l : List PeerConn) : (sortPeers l).length = l.length :=
  (List.perm_insertionSort _ l).length_eq

/-- Sorting keeps the members. -/
theorem sortPeers_mem (l : List PeerConn) (p : PeerConn) : p ∈ sortPeers l ↔ p ∈ l :=
  (List.perm_insertionSort _ l).mem_iff

/-! ## Claim C1 -/

/-- C1 (counterexample). The claim "after every call to
`session_impl::recalculate_unchoke_slots`, the number of unchoked peer
connections, counting only peers that do not ignore unchoke slots, equals
min(num_interested_peers, allowed_upload_slots)" is false on the code: with
the default fixed-slots choker, `num_optimistic_unchoke_slots = 0` (meaning
`max(1, m_allowed_upload_slots / 5)` slots are reserved for optimistic
unchokes), `m_allowed_upload_slots = 5` and ten eligible interested choked
peers, the scheduler unchokes only `5 - 1 = 4` peers, not `min(10, 5) = 5`. -/
theorem recalculate_unchoke_slots_claim_refuted :
    ¬ (unchokedNotIgnoring (recalculate_unchoke_slots 0 5 (List.replicate 10 cxPeer))
        = min (numInterestedPeers (List.replicate 10 cxPeer)) 5) := by
  decide

/-- C1 (amended). After a call to `recalculate_unchoke_slots` with the
fixed-slots choker, the number of unchoked eligible peers equals
`min(num_interested_peers, unchoke_set_size)` plus the number of peers ranked
outside that prefix that stay unchoked because they are currently
optimistically unchoked, where
`unchoke_set_size = max(0, m_allowed_upload_slots - num_opt_unchoke)` and
`num_opt_unchoke` is the configured optimistic-slot count (`0` meaning
`max(1, m_allowed_upload_slots / 5)`). -/
theorem recalculate_unchoke_slots_unchoked_count (cfg slots : Int)
    (conns : List PeerConn) :
    unchokedEligible (recalculate_unchoke_slots cfg slots conns)
      = min (numInterestedPeers conns) (slots - numOptUnchoke cfg slots).toNat
        + ((sortPeers (firstPass conns).2).drop
              (slots - numOptUnchoke cfg slots).toNat).countP
            (fun p => !p.choked && p.optUnchoked) := by
  unfold unchokedEligible recalculate_unchoke_slots
  simp only [List.countP_append]
  have h1 : ((firstPass conns).1).countP (fun p => unchokable p && !p.choked) = 0 :=
    List.countP_eq_zero.2 (by
      intro a ha
      simp [firstPass_fst_not_unchokable conns a ha])
  have h2 : ∀ p ∈ sortPeers (firstPass conns).2, unchokable p = true := by
    intro p hp
    exact firstPass_snd_unchokable conns p ((sortPeers_mem _ p).1 hp)
  rw [h1, unchokeLoop_unchoked_countP _ _ h2, unchokeLoop_count]
  rw [sortPeers_length, firstPass_snd_length]
  simp [numInterestedPeers]

/-! ## Helper lemmas for `rpc_manager::incoming` -/

/-- Any observer whose (tid, address) pair does not match the message survives
the matching loop. -/
theorem extractMatch_mem_rest (mtid : Option Nat) (srcAddr : Nat) :
    ∀ (l : List Observer) (o : Observer) (rest : List Observer),
      extractMatch mtid srcAddr l = some (o, rest) →
      ∀ x ∈ l, ¬(mtid = some x.tid ∧ x.targetAddr = srcAddr) → x ∈ rest := by
  intro l
  induction l with
  | nil =>
    intro o rest h
    simp [extractMatch] at h
  | cons a as ih =>
    intro o rest h x hx hcond
    by_cases hmatch : mtid = some a.tid ∧ a.targetAddr = srcAddr
    · rw [extractMatch, if_pos hmatch] at h
      cases h
      rcases List.mem_cons.1 hx with rfl | hx2
      · exact absurd hmatch hcond
      · exact hx2
    · rw [extractMatch, if_neg hmatch] at h
      cases hm : extractMatch mtid srcAddr as with
      | none =>
        rw [hm] at h
        cases h
      | some pr =>
        obtain ⟨m2, rest2⟩ := pr
        rw [hm, Option.some_inj, Prod.mk.injEq] at h
        obtain ⟨h1, h2⟩ := h
        subst h2
        rcases List.mem_cons.1 hx with rfl | hx2
        · exact List.mem_cons_self _ _
        · exact List.mem_cons_of_mem _ (ih m2 rest2 hm x hx2 hcond)

/-- The observer removed by the matching loop has the message's source
address recorded as its target. -/
theorem extractMatch_addr (mtid : Option Nat) (srcAddr : Nat) :
    ∀ (l : List Observer) (o : Observer) (rest : List Observer),
      extractMatch mtid srcAddr l = some (o, rest) → o.targetAddr = srcAddr := by
  intro l
  induction l with
  | nil =>
    intro o rest h
    simp [extractMatch] at h
  | cons a as ih =>
    intro o rest h
    by_cases hmatch : mtid = some a.tid ∧ a.targetAddr = srcAddr
    · rw [extractMatch, if_pos hmatch] at h
      cases h
      exact hmatch.2
    · rw [extractMatch, if_neg hmatch] at h
      cases hm : extractMatch mtid srcAddr as with
      | none =>
        rw [hm] at h
        cases h
      | some pr =>
        obtain ⟨m2, rest2⟩ := pr
        rw [hm, Option.some_inj, Prod.mk.injEq] at h
        obtain ⟨h1, h2⟩ := h
        rw [← h1]
        exact ih m2 rest2 hm

/-- If the transaction id matches no outstanding observer, the matching loop
finds nothing. -/
theorem extractMatch_none (mtid : Option Nat) (srcAddr : Nat) :
    ∀ (l : List Observer), (∀ x ∈ l, mtid ≠ some x.tid) →
      extractMatch mtid srcAddr l = none := by
  intro l
  induction l with
  | nil =>
    intro _
    rfl
  | cons a as ih =>
    intro h
    rw [extractMatch, if_neg (fun hc => h a (List.mem_cons_self _ _) hc.1)]
    rw [ih (fun x hx => h x (List.mem_cons_of_mem _ hx))]

/-! ## Claim C2 -/

/-- C2. A reply whose transaction id equals that of an outstanding observer
but whose source address differs from that observer's recorded target does
not match it: the observer's `reply` callback is not invoked and the
observer stays in the transaction list. A reply whose transaction id matches
no outstanding observer is answered with the bencoded error
"invalid transaction id" sent to the source. -/
theorem incoming_mismatch_and_unknown_tid (ns : Bool) (trans : List Observer)
    (m : DhtMsg) :
    (∀ obs ∈ trans, m.tid = some obs.tid → obs.targetAddr ≠ m.srcAddr →
        obs ∈ (incoming false ns trans m).transactions ∧
          (incoming false ns trans m).replied ≠ some obs) ∧
    ((∀ obs ∈ trans, m.tid ≠ some obs.tid) →
        (incoming false ns trans m).sent
          = [(DhtError.invalidTransactionId, m.srcAddr)]) := by
  constructor
  · intro obs hmem htid haddr
    unfold incoming
    rw [if_neg (by simp)]
    cases hm : extractMatch m.tid m.srcAddr trans with
    | none =>
      simp [hmem]
    | some pr =>
      obtain ⟨o, rest⟩ := pr
      have hrest : obs ∈ rest :=
        extractMatch_mem_rest m.tid m.srcAddr trans o rest hm obs hmem
          (fun hc => haddr hc.2)
      have ho : o.targetAddr = m.srcAddr := extractMatch_addr m.tid m.srcAddr trans o rest hm
      have hne : some o ≠ some obs := by
        intro he
        apply haddr
        rw [← Option.some_inj.1 he]
        exact ho
      by_cases h1 : m.hasR
      · by_cases h2 : m.goodNodeId
        · simp [h1, h2, hrest, hne]
        · simp [h1, h2, hrest]
      · simp [h1, hrest]
  · intro hno
    unfold incoming
    rw [if_neg (by simp)]
    rw [extractMatch_none m.tid m.srcAddr trans hno]

/-- Concrete outstanding observer for the C2 witness: transaction id 5,
recorded target address 7. -/
def obsA : Observer := ⟨5, 7, 6881, 0, false, false⟩

/-- Reply carrying obsA's transaction id but arriving from address 8. -/
def msgWrongAddr : DhtMsg := ⟨some 5, 8, 6881, true, true⟩

/-- Reply whose transaction id 6 matches no outstanding observer. -/
def msgUnknownTid : DhtMsg := ⟨some 6, 8, 6881, true, true⟩

/-- Witness instantiating C2 at concrete inputs. -/
theorem incoming_mismatch_and_unknown_tid_inst :
    (obsA ∈ (incoming false true [obsA] msgWrongAddr).transactions ∧
      (incoming false true [obsA] msgWrongAddr).replied ≠ some obsA) ∧
    (incoming false true [obsA] msgUnknownTid).sent
      = [(DhtError.invalidTransactionId, 8)] :=
  ⟨(incoming_mismatch_and_unknown_tid true [obsA] msgWrongAddr).1 obsA (by decide)
      (by decide) (by decide),
    (incoming_mismatch_and_unknown_tid true [obsA] msgUnknownTid).2 (by decide)⟩

/-! ## Helper lemmas for `rpc_manager::tick` -/

/-- Along a list ordered so that the predicate can only turn from true to
false, a member satisfying the predicate lies in the `takeWhile` part. -/
theorem mem_takeWhile_of_antitone {α : Type} (p : α → Bool) (R : α → α → Prop)
    (hmono : ∀ a b, R a b → p b = true → p a = true) :
    ∀ (l : List α), l.Pairwise R → ∀ x ∈ l, p x = true → x ∈ l.takeWhile p := by
  intro l
  induction l with
  | nil =>
    intro _ x hx
    exact absurd hx (List.not_mem_nil x)
  | cons a as ih =>
    intro hpw x hx hpx
    have hhead : ∀ b ∈ as, R a b := (List.pairwise_cons.1 hpw).1
    have htail := (List.pairwise_cons.1 hpw).2
    rcases List.mem_cons.1 hx with rfl | hx2
    · rw [List.takeWhile_cons_of_pos hpx]
      exact List.mem_cons_self _ _
    · have hpa : p a = true := hmono a x (hhead x hx2) hpx
      rw [List.takeWhile_cons_of_pos hpa]
      exact List.mem_cons_of_mem _ (ih htail x hx2 hpx)

/-- A member falsifying the predicate lies in the `dropWhile` part (the
removed leading elements all satisfy it). -/
theorem mem_dropWhile_of_false {α : Type} (p : α → Bool) :
    ∀ (l : List α), ∀ x ∈ l, p x = false → x ∈ l.dropWhile p := by
  intro l
  induction l with
  | nil =>
    intro x hx
    exact absurd hx (List.not_mem_nil x)
  | cons a as ih =>
    intro x hx hpx
    by_cases hpa : p a = true
    · rw [List.dropWhile_cons_of_pos hpa]
      rcases List.mem_cons.1 hx with rfl | hx2
      · rw [hpx] at hpa
        cases hpa
      · exact ih x hx2 hpx
    · rw [List.dropWhile_cons_of_neg hpa]
      exact hx

/-- Along such a list, every element of the `dropWhile` part falsifies the
predicate. -/
theorem dropWhile_all_false_of_antitone {α : Type} (p : α → Bool) (R : α → α → Prop)
    (hmono : ∀ a b, R a b → p b = true → p a = true) :
    ∀ (l : List α), l.Pairwise R → ∀ x ∈ l.dropWhile p, p x = false := by
  intro l
  induction l with
  | nil =>
    intro _ x hx
    simp at hx
  | cons a as ih =>
    intro hpw x hx
    by_cases hpa : p a = true
    · rw [List.dropWhile_cons_of_pos hpa] at hx
      exact ih (List.pairwise_cons.1 hpw).2 x hx
    · rw [List.dropWhile_cons_of_neg hpa] at hx
      rcases List.mem_cons.1 hx with rfl | hx2
      · exact Bool.eq_false_iff.2 hpa
      · cases hpx : p x
        · rfl
        · exact absurd (hmono a x ((List.pairwise_cons.1 hpw).1 x hx2) hpx) hpa

/-- A peer sent earlier has been waiting at least as long, so the hard-timeout
condition can only hold for a prefix of the sorted transaction list. -/
theorem hardExpired_mono (now : Nat) (a b : Observer) (hab : a.sent ≤ b.sent)
    (hb : hardExpired now b = true) : hardExpired now a = true := by
  simp only [hardExpired, seconds, decide_eq_true_eq] at hb ⊢
  omega

/-- Same for the short-timeout condition. -/
theorem shortExpired_mono (now : Nat) (a b : Observer) (hab : a.sent ≤ b.sent)
    (hb : shortExpired now b = true) : shortExpired now a = true := by
  simp only [shortExpired, seconds, decide_eq_true_eq] at hb ⊢
  omega

/-- Unfolding of the transaction list produced by `tick`. -/
theorem tick_transactions (now : Nat) (trans : List Observer) (hne : trans ≠ []) :
    (tick now trans).transactions
      = ((trans.dropWhile (hardExpired now)).takeWhile (shortExpired now)).map setShortFlag
          ++ (trans.dropWhile (hardExpired now)).dropWhile (shortExpired now) := by
  rw [tick, if_neg hne]

/-- Unfolding of the hard-timeout failures produced by `tick`. -/
theorem tick_hardFailed (now : Nat) (trans : List Observer) (hne : trans ≠ []) :
    (tick now trans).hardFailed
      = (trans.takeWhile (hardExpired now)).filter (fun o => !o.done) := by
  rw [tick, if_neg hne]

/-- Unfolding of the short-timeout signals produced by `tick`. -/
theorem tick_shortSignals (now : Nat) (trans : List Observer) (hne : trans ≠ []) :
    (tick now trans).shortSignals
      = ((trans.dropWhile (hardExpired now)).takeWhile (shortExpired now)).filter
          (fun o => !o.shortTimeoutFlag) := by
  rw [tick, if_neg hne]

/-- `tick` hands nothing to `m_send`. -/
theorem tick_sends (now : Nat) (trans : List Observer) :
    (tick now trans).sends = [] := by
  by_cases hne : trans = []
  · rw [tick, if_pos hne]
  · rw [tick, if_neg hne]

/-! ## Claim C3 -/

/-- C3. For an outstanding observer that has received no reply (`m_done`
false), on a tick at time `now` over the transaction list (kept sorted by
send time, as `invoke` appends at the back with a monotone clock): once at
least 20 seconds have elapsed since it was sent, the observer is removed
from the transaction list and its hard-timeout failure runs; while between
3 and 20 seconds have elapsed, its short timeout is signalled if and only
if it has not been signalled before (the `m_short_timeout` latch makes the
signal happen at most once across repeated ticks), and the observer stays
in the list; and `tick` issues no packet, hence no retransmission or retry
from the RPC layer. -/
theorem tick_timeout_behavior (now : Nat) (trans : List Observer) (obs : Observer)
    (hsorted : trans.Pairwise (fun a b => a.sent ≤ b.sent))
    (hmem : obs ∈ trans) (hdone : obs.done = false) :
    (seconds 20 ≤ now - obs.sent →
        obs ∉ (tick now trans).transactions ∧ obs ∈ (tick now trans).hardFailed) ∧
    (seconds 3 ≤ now - obs.sent → now - obs.sent < seconds 20 →
        (obs.shortTimeoutFlag = false →
            obs ∈ (tick now trans).shortSignals ∧
              setShortFlag obs ∈ (tick now trans).transactions) ∧
        (obs.shortTimeoutFlag = true →
            obs ∉ (tick now trans).shortSignals ∧ obs ∈ (tick now trans).transactions)) ∧
    (tick now trans).sends = [] := by
  have hne : trans ≠ [] := List.ne_nil_of_mem hmem
  have hrestfalse : ∀ x ∈ trans.dropWhile (hardExpired now), hardExpired now x = false :=
    dropWhile_all_false_of_antitone _ _ (hardExpired_mono now) trans hsorted
  refine ⟨?_, ?_, tick_sends now trans⟩
  · intro h20
    have hp20 : hardExpired now obs = true := by
      simp [hardExpired, h20]
    constructor
    · rw [tick_transactions now trans hne]
      intro hin
      rcases List.mem_append.1 hin with hl | hr
      · obtain ⟨y, hy, hyeq⟩ := List.mem_map.1 hl
        have hyrest : y ∈ trans.dropWhile (hardExpired now) :=
          (List.takeWhile_sublist _).mem hy
        have hyfalse := hrestfalse y hyrest
        have hsent : y.sent = obs.sent := by
          rw [← hyeq]
          rfl
        rw [hardExpired, decide_eq_false_iff_not] at hyfalse
        exact hyfalse (hsent ▸ h20)
      · have hofalse := hrestfalse obs ((List.dropWhile_sublist _).mem hr)
        rw [hofalse] at hp20
        cases hp20
    · rw [tick_hardFailed now trans hne]
      refine List.mem_filter.2
        ⟨mem_takeWhile_of_antitone _ _ (hardExpired_mono now) trans hsorted obs hmem hp20, ?_⟩
      simp [hdone]
  · intro h3 h20
    have hp20f : hardExpired now obs = false := by
      rw [hardExpired, decide_eq_false_iff_not]
      omega
    have hrest : obs ∈ trans.dropWhile (hardExpired now) :=
      mem_dropWhile_of_false _ trans obs hmem hp20f
    have hrestsorted :
        (trans.dropWhile (hardExpired now)).Pairwise (fun a b => a.sent ≤ b.sent) :=
      hsorted.sublist (List.dropWhile_sublist _)
    have hp3 : shortExpired now obs = true := by
      simp [shortExpired, h3]
    have hpfx : obs ∈ (trans.dropWhile (hardExpired now)).takeWhile (shortExpired now) :=
      mem_takeWhile_of_antitone _ _ (shortExpired_mono now) _ hrestsorted obs hrest hp3
    constructor
    · intro hflag
      constructor
      · rw [tick_shortSignals now trans hne]
        exact List.mem_filter.2 ⟨hpfx, by simp [hflag]⟩
      · rw [tick_transactions now trans hne]
        exact List.mem_append_left _ (List.mem_map_of_mem _ hpfx)
    · intro hflag
      constructor
      · rw [tick_shortSignals now trans hne]
        intro hin
        have hkeep := List.of_mem_filter hin
        rw [hflag] at hkeep
        cases hkeep
      · rw [tick_transactions now trans hne]
        have heq : setShortFlag obs = obs := by
          cases obs
          simp_all [setShortFlag]
        rw [← heq]
        exact List.mem_append_left _ (List.mem_map_of_mem _ hpfx)

/-- Observer for the C3 witness whose hard timeout has expired: sent at time
0, examined at time 25000 ms. -/
def obsT1 : Observer := ⟨1, 10, 6881, 0, false, false⟩

/-- Observer for the C3 witness inside the short-timeout window with its
short-timeout latch already set. -/
def obsT2 : Observer := ⟨2, 11, 6881, 21000, false, true⟩

/-- Observer for the C3 witness that is still young. -/
def obsT3 : Observer := ⟨3, 12, 6881, 23000, false, false⟩

/-- Witness instantiating C3 at concrete inputs. -/
theorem tick_timeout_behavior_inst :
    (obsT1 ∉ (tick 25000 [obsT1, obsT2, obsT3]).transactions ∧
      obsT1 ∈ (tick 25000 [obsT1, obsT2, obsT3]).hardFailed) ∧
    (obsT2 ∉ (tick 25000 [obsT1, obsT2, obsT3]).shortSignals ∧
      obsT2 ∈ (tick 25000 [obsT1, obsT2, obsT3]).transactions) ∧
    (tick 25000 [obsT1, obsT2, obsT3]).sends = [] :=
  ⟨(tick_timeout_behavior 25000 [obsT1, obsT2, obsT3] obsT1 (by decide) (by decide)
      (by decide)).1 (by decide),
    ((tick_timeout_behavior 25000 [obsT1, obsT2, obsT3] obsT2 (by decide) (by decide)
      (by decide)).2.1 (by decide) (by decide)).2 (by decide),
    (tick_timeout_behavior 25000 [obsT1, obsT2, obsT3] obsT3 (by decide) (by decide)
      (by decide)).2.2⟩

/-- Supporting invariant for C3: `invoke` appends the new observer at the
back stamped with the current time, so with a monotone clock the
transaction list stays sorted by send time — the ordering `tick` relies on. -/
theorem invoke_preserves_sorted (destructing : Bool) (now : Nat) (target : Nat × Nat)
    (sendOk : Bool) (st : InvokeState)
    (h : st.transactions.Pairwise (fun a b => a.sent ≤ b.sent))
    (hnow : ∀ o ∈ st.transactions, o.sent ≤ now) :
    ((invoke destructing now target sendOk st).1).transactions.Pairwise
      (fun a b => a.sent ≤ b.sent) := by
  unfold invoke
  by_cases hd : destructing
  · rw [if_pos hd]
    exact h
  · rw [if_neg hd]
    by_cases hs : sendOk
    · rw [if_pos hs]
      rw [List.pairwise_append]
      refine ⟨h, List.pairwise_singleton _ _, ?_⟩
      intro a ha b hb
      rw [List.mem_singleton.1 hb]
      exact hnow a ha
    · rw [if_neg hs]
      exact h
